import Mathlib

/-!
Verification of the MoneyBot connectivity core (src/main/main.c, src/main/dns_server.c).

The development is a shallow embedding: C byte buffers become `List Nat`
(each element a byte value, `0` playing the role of the terminating null of a
C string), stateful handlers become explicit state-passing functions, and the
FreeRTOS / cJSON library calls the code makes are modelled by functions with
the documented semantics of those calls at the call sites actually used.
-/

/- ===========================================================================
   Definitions (shallow embedding of the program)
   =========================================================================== -/

/-- The IP address the captive-portal DNS responder answers with
(`static const uint8_t captive_ip[4] = {192, 168, 4, 1}`). -/
def captive_ip : List Nat := [192, 168, 4, 1]

/-- The 16-byte answer record `dns_server_task` appends after the copied
request: name compression pointer 0xC0 0x0C, TYPE A (0x0001), CLASS IN
(0x0001), TTL 60 (0x0000003C), RDLENGTH 4, then the 4 bytes of `captive_ip`. -/
def dns_answer_record : List Nat :=
  [192, 12, 0, 1, 0, 1, 0, 0, 0, 60, 0, 4] ++ captive_ip

/-- The header rewrite `dns_server_task` performs on the copied request:
`resp_header->flags = htons(0x8400)` stores bytes 0x84, 0x00 at offsets 2 and 3,
and `resp_header->ancount = htons(1)` stores bytes 0x00, 0x01 at offsets 6 and 7
(the ESP32 is little-endian, so `htons` emits network byte order). -/
def dns_set_header (rx : List Nat) : List Nat :=
  (((rx.set 2 132).set 3 0).set 6 0).set 7 1

/-- `sizeof(dns_header_t)`: id, flags, qdcount, ancount, nscount, arcount,
two bytes each. -/
def dns_header_size : Nat := 12

/-- One iteration of the `dns_server_task` receive loop, as a function from the
received datagram to the optional response datagram: datagrams shorter than the
12-byte header are dropped (`continue`, no `sendto`); otherwise the request is
copied, the flags/ancount rewrite is applied and the 16-byte answer record is
appended, and the result of length `len + 16` is sent. -/
def dns_server_handle_datagram (rx : List Nat) : Option (List Nat) :=
  if rx.length < dns_header_size then none
  else some (dns_set_header rx ++ dns_answer_record)

/-- `uint8_t tx_buffer[512]` in `dns_server_task`. -/
def DNS_TX_BUFFER_SIZE : Nat := 512

/-- `uint8_t rx_buffer[512]` in `dns_server_task`; `recvfrom` never returns
more than this many bytes. -/
def DNS_RX_BUFFER_SIZE : Nat := 512

/-- The byte offsets of `tx_buffer` written while building the response to a
request of length `len`: `memcpy(tx_buffer, rx_buffer, len)` writes offsets
`0 .. len-1`, the flags/ancount stores write offsets 2, 3, 6, 7, and the
answer-record writes (`answer[0] .. answer[11]` and the final `memcpy` of the
4 IP bytes) write offsets `len .. len+15`. -/
def dns_tx_write_offsets (len : Nat) : List Nat :=
  List.range len ++ [2, 3, 6, 7] ++ (List.range 16).map (fun k => len + k)

/-- Reading byte `s[k]` of a C string buffer modelled as the list of its bytes
before the terminating null: index `src.length` is the terminator (0), and the
functions below also record the largest index they pass to `readAt`, so that
the absence of reads beyond the terminator is provable, not assumed. -/
def readAt (src : List Nat) (k : Nat) : Nat := (src[k]?).getD 0

/-- C `isspace` on the default locale: space and 0x09..0x0D. -/
def isSpaceB (c : Nat) : Bool := c == 32 || (9 ≤ c && c ≤ 13)

/-- ASCII decimal digit test, as in `*end >= '0' && *end <= '9'`. -/
def isDigitB (c : Nat) : Bool := 48 ≤ c && c ≤ 57

/-- ASCII hex digit test, as in the hex-entity scan loop. -/
def isHexDigitB (c : Nat) : Bool :=
  (48 ≤ c && c ≤ 57) || (97 ≤ c && c ≤ 102) || (65 ≤ c && c ≤ 70)

/-- Value of an ASCII hex digit (0 on other bytes; only applied to digits). -/
def hexVal (c : Nat) : Nat :=
  if 48 ≤ c ∧ c ≤ 57 then c - 48
  else if 97 ≤ c ∧ c ≤ 102 then c - 87
  else if 65 ≤ c ∧ c ≤ 70 then c - 55
  else 0

/-- Accumulated value of a run of hex digits, as `strtol`/`strtoul` base 16
computes it. -/
def hexDigitsValInt (l : List Nat) : Int :=
  l.foldl (fun a c => a * 16 + (hexVal c : Int)) 0

/-- C `strtol(s, NULL, 16)` on the two-character string `l` built in
`url_decode_pass1` (`char hex[3] = {s[1], s[2], 0}`): skip leading spaces, an
optional sign, then a maximal run of hex digits (a `0x` prefix cannot occur
inside two characters, since it would need a following digit; `strtol("0x")`
parses just the `0`). Both characters are at most two, so the `long` range is
never exceeded. -/
def strtol16 (l : List Nat) : Int :=
  match l.dropWhile isSpaceB with
  | [] => 0
  | c :: t =>
    if c = 43 then hexDigitsValInt (t.takeWhile isHexDigitB)
    else if c = 45 then - hexDigitsValInt (t.takeWhile isHexDigitB)
    else hexDigitsValInt ((c :: t).takeWhile isHexDigitB)

/-- `(char)strtol(hex, NULL, 16)` stored into the byte buffer: the low 8 bits
of the parsed value, read back as an unsigned byte. -/
def strtol16Byte (a b : Nat) : Nat := (strtol16 [a, b] % 256).toNat

/-- Pass 1 of the form decoder (`url_decode_pass1`): the loop
`while (*s && remaining > 0)` with cursor `i` and `remaining = r`, translating
`+` to space and `%XY` (both lookahead bytes non-null) to the parsed byte.
Returns the bytes written before the final null, and the largest input index
read (the guards `s[1]` and `s[2]` are themselves reads and are counted). -/
def url_decode_pass1_go (src : List Nat) (i : Nat) (r : Nat) : List Nat × Nat :=
  let c := readAt src i
  if c = 0 then ([], i)
  else
    match r with
    | 0 => ([], i)
    | r' + 1 =>
      if c = 43 then
        let p := url_decode_pass1_go src (i+1) r'
        (32 :: p.1, p.2)
      else if c = 37 then
        let c1 := readAt src (i+1)
        if c1 = 0 then
          let p := url_decode_pass1_go src (i+1) r'
          (37 :: p.1, max p.2 (i+1))
        else
          let c2 := readAt src (i+2)
          if c2 = 0 then
            let p := url_decode_pass1_go src (i+1) r'
            (37 :: p.1, max p.2 (i+2))
          else
            let p := url_decode_pass1_go src (i+3) r'
            (strtol16Byte c1 c2 :: p.1, p.2)
      else
        let p := url_decode_pass1_go src (i+1) r'
        (c :: p.1, p.2)

/-- `url_decode_pass1(dst, src, dst_size)`: runs the loop with
`remaining = dst_size - 1` and returns the written bytes (the null terminator
lands right after them). -/
def url_decode_pass1 (src : List Nat) (dst_size : Nat) : List Nat :=
  (url_decode_pass1_go src 0 (dst_size - 1)).1

/-- Index at which a scan loop `while (p(*end)) end++;` starting at `j` stops:
the first index at or after `j` whose byte fails `p` (the terminator fails
both digit tests, so the scan never passes it). -/
def scanEnd (p : Nat → Bool) (src : List Nat) (j : Nat) : Nat :=
  j + ((src.drop j).takeWhile p).length

/-- Value of a run of decimal digits, as `strtoul` base 10 computes it. -/
def decListVal (l : List Nat) : Nat :=
  l.foldl (fun a c => a * 10 + (c - 48)) 0

/-- Value of a run of hex digits as a `Nat`. -/
def hexListVal (l : List Nat) : Nat :=
  l.foldl (fun a c => a * 16 + hexVal c) 0

/-- `ULONG_MAX` on the 32-bit target: `strtoul` clamps overflowing input to
this value. -/
def ULONG_MAX32 : Nat := 4294967295

/-- `strtoul` result for a digit run of value `v`: clamped at `ULONG_MAX`. -/
def strtoulSat (v : Nat) : Nat := if v ≤ ULONG_MAX32 then v else ULONG_MAX32

/-- `encode_utf8`: UTF-8 bytes of a code point, empty for values ≥ 0x110000
(the C function returns length 0 there); the C shift/mask arithmetic
`0xC0 | (cp >> 6)`, `0x80 | (cp & 0x3F)`, … is division/remainder here. -/
def encode_utf8 (cp : Nat) : List Nat :=
  if cp < 128 then [cp]
  else if cp < 2048 then [192 + cp / 64, 128 + cp % 64]
  else if cp < 65536 then [224 + cp / 4096, 128 + cp / 64 % 64, 128 + cp % 64]
  else if cp < 1114112 then
    [240 + cp / 262144, 128 + cp / 4096 % 64, 128 + cp / 64 % 64, 128 + cp % 64]
  else []

/-- Pass 2 of the form decoder (`html_entity_decode`): the loop
`while (*s && remaining > 0)` with cursor `i` and `remaining = r`. On `&#` it
scans a maximal digit run (hex after `x`/`X`, else decimal), and if the run is
non-empty, its `strtoul` value is positive and the byte after it is `;`, the
UTF-8 encoding is emitted when it is non-empty and fits in `remaining` and
`remaining` drops by its length; in every other case the single byte `&` is
copied and scanning resumes right after it. Returns the written bytes and the
largest index read. The first argument `f` is a structural bound on the number
of loop iterations: every iteration decreases `remaining` by at least 1, so
running with `f = r` (as `html_entity_decode` does) performs the loop exactly —
whenever `f` reaches 0, `r` is 0 as well and the loop has already exited. -/
def html_entity_decode_go (src : List Nat) : Nat → Nat → Nat → List Nat × Nat
  | 0, i, _ => ([], i)
  | f + 1, i, r =>
    let c := readAt src i
    if c = 0 then ([], i)
    else if r = 0 then ([], i)
    else
      if c = 38 then
        if readAt src (i+1) = 35 then
          let cs := readAt src (i+2)
          let e := if cs = 120 ∨ cs = 88 then scanEnd isHexDigitB src (i+3)
                   else scanEnd isDigitB src (i+2)
          let cp := if cs = 120 ∨ cs = 88 then
                      (if i + 3 < e then
                        strtoulSat (hexListVal ((src.drop (i+3)).takeWhile isHexDigitB))
                      else 0)
                    else
                      (if i + 2 < e then
                        strtoulSat (decListVal ((src.drop (i+2)).takeWhile isDigitB))
                      else 0)
          if 0 < cp ∧ readAt src e = 59 then
            let u := encode_utf8 cp
            if 0 < u.length ∧ u.length ≤ r then
              let p := html_entity_decode_go src f (e+1) (r - u.length)
              (u ++ p.1, max p.2 e)
            else
              let p := html_entity_decode_go src f (i+1) (r-1)
              (38 :: p.1, max p.2 e)
          else
            let p := html_entity_decode_go src f (i+1) (r-1)
            (38 :: p.1, max p.2 e)
        else
          let p := html_entity_decode_go src f (i+1) (r-1)
          (38 :: p.1, max p.2 (i+1))
      else
        let p := html_entity_decode_go src f (i+1) (r-1)
        (c :: p.1, p.2)

/-- `html_entity_decode(dst, src, dst_size)`: runs the loop with
`remaining = dst_size - 1` and returns the written bytes. -/
def html_entity_decode (src : List Nat) (dst_size : Nat) : List Nat :=
  (html_entity_decode_go src (dst_size - 1) 0 (dst_size - 1)).1

/-- `url_decode(dst, src, dst_size)`: pass 1 into the 256-byte `temp` buffer,
then pass 2 from the C string held in `temp` (its bytes up to the first null)
into the destination. -/
def url_decode (src : List Nat) (dst_size : Nat) : List Nat :=
  let temp := url_decode_pass1 src 256
  html_entity_decode (temp.takeWhile (fun b => b != 0)) dst_size

/-- Modelled from the spec: the percent-encoding applied before the two-pass
decoder in the round-trip property (the encoder itself is browser-side and not
part of the repository). Every byte is written as `%` followed by its two
uppercase hex digits, the fully-escaped form of
`application/x-www-form-urlencoded` encoding. -/
def hexDigitOfNat (n : Nat) : Nat := if n < 10 then 48 + n else 55 + n

/-- Modelled from the spec: percent-encode a byte string, see
`hexDigitOfNat`. -/
def percent_encode (s : List Nat) : List Nat :=
  s.foldr (fun b acc => 37 :: hexDigitOfNat (b / 16) :: hexDigitOfNat (b % 16) :: acc) []

/-- Bytes of the literal `"&#65;&#66;"` from the round-trip test property. -/
def entityABBytes : List Nat := [38, 35, 54, 53, 59, 38, 35, 54, 54, 59]

/-- No position of the list starts a numeric entity: no `&` immediately
followed by `#`. Under this condition pass 2 is the identity. -/
def noEntityStartB : List Nat → Bool
  | a :: b :: t => (!(a == 38 && b == 35)) && noEntityStartB (b :: t)
  | _ => true

/-- cJSON value tree, as produced by `cJSON_Parse`; strings and object keys
are byte lists (cJSON stores C strings; numbers are doubles, modelled here at
the integer values the claims use). -/
inductive JVal where
  | jnull
  | jbool (b : Bool)
  | jnum (v : Int)
  | jstr (s : List Nat)
  | jarr (elems : List JVal)
  | jobj (fields : List (List Nat × JVal))

/-- C `tolower` on a byte (default locale), as used by cJSON name lookup. -/
def lowerByte (c : Nat) : Nat := if 65 ≤ c ∧ c ≤ 90 then c + 32 else c

/-- Case-insensitive byte-string equality (cJSON compares names with
case-insensitive comparison in `cJSON_GetObjectItem`). -/
def strcasecmpEq (a b : List Nat) : Bool := a.map lowerByte == b.map lowerByte

/-- `cJSON_GetObjectItem(root, name)`: first member of an object whose key
matches case-insensitively; NULL (`none`) on non-objects and missing keys. -/
def cJSON_GetObjectItem (j : JVal) (name : List Nat) : Option JVal :=
  match j with
  | JVal.jobj fields => (fields.find? (fun kv => strcasecmpEq kv.1 name)).map (fun kv => kv.2)
  | _ => none

/-- Bytes of the constant strings used by `handle_mqtt_message`. -/
def typeKeyB : List Nat := [116, 121, 112, 101]

/-- Bytes of `"status"`. -/
def statusKeyB : List Nat := [115, 116, 97, 116, 117, 115]

/-- Bytes of `"amount"`. -/
def amountKeyB : List Nat := [97, 109, 111, 117, 110, 116]

/-- Bytes of `"currency"`. -/
def currencyKeyB : List Nat := [99, 117, 114, 114, 101, 110, 99, 121]

/-- Bytes of `"eventId"`. -/
def eventIdKeyB : List Nat := [101, 118, 101, 110, 116, 73, 100]

/-- Bytes of `"sale"`. -/
def saleB : List Nat := [115, 97, 108, 101]

/-- Bytes of `"succeeded"`. -/
def succeededB : List Nat := [115, 117, 99, 99, 101, 101, 100, 101, 100]

/-- Bytes of `"failed"`. -/
def failedB : List Nat := [102, 97, 105, 108, 101, 100]

/-- Bytes of `"USD"`. -/
def usdB : List Nat := [85, 83, 68]

/-- Bytes of `"e1"`. -/
def e1B : List Nat := [101, 49]

/-- `sale_event_t`: `{int32_t amount; char currency[8]; char event_id[64]}`,
the strings modelled as their bytes before the terminating null. -/
structure sale_event_t where
  amount : Int
  currency : List Nat
  event_id : List Nat
deriving DecidableEq

/-- `sale_event_t event = {0}`. -/
def zeroEvent : sale_event_t := ⟨0, [], []⟩

/-- The `(int32_t)` conversion applied to `amount->valuedouble` (two's
complement wrap at 32 bits; coincides with the C cast on every in-range
value). -/
def toInt32 (v : Int) : Int := (v + 2147483648) % 4294967296 - 2147483648

/-- The parse-and-screen section of `handle_mqtt_message` on the result of
`cJSON_Parse` (`none` = parse failed): a failed parse still triggers with the
zeroed event (MVP tolerance); otherwise the message triggers iff `type` is the
string `"sale"` and `status` is absent, not a string, or equals
`"succeeded"`; on trigger, `amount`/`currency`/`eventId` are copied with
defaults 0 / empty, `strncpy` truncating `currency` to 7 and `event_id` to 63
bytes (the zero-initialised arrays keep them null-terminated). Returns the
`trigger` flag and the event. -/
def parse_sale_message (parsed : Option JVal) : Bool × sale_event_t :=
  match parsed with
  | none => (true, zeroEvent)
  | some root =>
    match cJSON_GetObjectItem root typeKeyB with
    | some (JVal.jstr ts) =>
      if ts = saleB then
        let ok : Bool :=
          match cJSON_GetObjectItem root statusKeyB with
          | none => true
          | some (JVal.jstr ss) => ss == succeededB
          | some _ => true
        if ok then
          (true,
           { amount := match cJSON_GetObjectItem root amountKeyB with
               | some (JVal.jnum v) => toInt32 v
               | _ => 0
             currency := match cJSON_GetObjectItem root currencyKeyB with
               | some (JVal.jstr s) => s.take 7
               | _ => []
             event_id := match cJSON_GetObjectItem root eventIdKeyB with
               | some (JVal.jstr s) => s.take 63
               | _ => [] })
        else (false, zeroEvent)
      else (false, zeroEvent)
    | _ => (false, zeroEvent)

/-- The state `handle_mqtt_message` reads and writes: the debounce timestamp
`last_animation_time` (ms) and the animation queue contents. -/
structure PipelineState where
  last_animation_time : Int
  queue : List sale_event_t
deriving DecidableEq

/-- `xQueueCreate(5, sizeof(sale_event_t))` in `app_main`. -/
def QUEUE_CAPACITY : Nat := 5

/-- `#define ANIMATION_DEBOUNCE_MS 1000`. -/
def ANIMATION_DEBOUNCE_MS : Int := 1000

/-- `xQueueSend(animation_queue, &event, 0)`: non-blocking FreeRTOS queue send
onto a queue of capacity `QUEUE_CAPACITY`; appends in arrival order when there
is room and otherwise returns immediately, dropping the item. -/
def xQueueSend (q : List sale_event_t) (e : sale_event_t) : List sale_event_t :=
  if q.length < QUEUE_CAPACITY then q ++ [e] else q

/-- `handle_mqtt_message(data, data_len)` over the parse result of the payload
(`now` = `esp_timer_get_time() / 1000`): inside the debounce window the message
is discarded with no state change; otherwise, if the parse section triggers,
`last_animation_time` is set to `now` and the event is sent to the queue
(allocation of the scratch copy of the payload is assumed to succeed). -/
def handle_mqtt_message (now : Int) (parsed : Option JVal) (st : PipelineState) : PipelineState :=
  if now - st.last_animation_time < ANIMATION_DEBOUNCE_MS then st
  else if (parse_sale_message parsed).1 then
    { last_animation_time := now,
      queue := xQueueSend st.queue (parse_sale_message parsed).2 }
  else st

/-- The acceptance condition that `handle_mqtt_message` actually implements on
a successfully parsed payload: `type` is exactly the string `"sale"`, and
`status` is absent, or present but not a string, or the string
`"succeeded"`. -/
def sale_accept_condition (root : JVal) : Prop :=
  cJSON_GetObjectItem root typeKeyB = some (JVal.jstr saleB) ∧
  (match cJSON_GetObjectItem root statusKeyB with
   | none => True
   | some (JVal.jstr ss) => ss = succeededB
   | some _ => True)

/-- `{"type":"sale","amount":500,"currency":"USD","eventId":"e1"}` parsed. -/
def sampleSale500 : JVal :=
  JVal.jobj [(typeKeyB, JVal.jstr saleB), (amountKeyB, JVal.jnum 500),
             (currencyKeyB, JVal.jstr usdB), (eventIdKeyB, JVal.jstr e1B)]

/-- `{"type":"sale","status":"failed"}` parsed. -/
def sampleSaleFailed : JVal :=
  JVal.jobj [(typeKeyB, JVal.jstr saleB), (statusKeyB, JVal.jstr failedB)]

/-- `{"type":"sale","status":1}` parsed: `status` present but not a string. -/
def statusBadRoot : JVal :=
  JVal.jobj [(typeKeyB, JVal.jstr saleB), (statusKeyB, JVal.jnum 1)]

/-- `#define WIFI_RETRY_MAX 2`. -/
def WIFI_RETRY_MAX : Nat := 2

/-- The state the disconnect handler reads and writes: `wifi_retry_count`,
`provisioning_mode`, and the WIFI_FAIL_BIT / WIFI_CONNECTED_BIT of the event
group. -/
structure WifiState where
  wifi_retry_count : Nat
  provisioning_mode : Bool
  wifi_fail_bit : Bool
  wifi_connected_bit : Bool
deriving DecidableEq

/-- `conn_state_t` from main.c. -/
inductive conn_state_t where
  | DISCONNECTED
  | WIFI_CONNECTING
  | WIFI_PROVISIONING
  | WIFI_CONNECTED
  | MQTT_CONNECTING
  | MQTT_CONNECTED
deriving DecidableEq

/-- The `WIFI_EVENT_STA_DISCONNECTED` branch of `wifi_event_handler`: clears
the connected bit, and outside provisioning mode increments the retry counter
first and then compares it against `WIFI_RETRY_MAX`; below the maximum it
calls `esp_wifi_connect()` again (second component `true` = immediate
re-attempt), otherwise it sets `WIFI_FAIL_BIT`. -/
def wifi_on_sta_disconnected (st : WifiState) : WifiState × Bool :=
  let st1 := { st with wifi_connected_bit := false }
  if st1.provisioning_mode then (st1, false)
  else
    let rc := st1.wifi_retry_count + 1
    if rc < WIFI_RETRY_MAX then ({ st1 with wifi_retry_count := rc }, true)
    else ({ st1 with wifi_retry_count := rc, wifi_fail_bit := true }, false)

/-- The machine state when `wifi_connect` starts a credential-based attempt:
it resets `wifi_retry_count = 0`; the event-group bits start cleared and
`provisioning_mode` is false. -/
def wifi_initial : WifiState := ⟨0, false, false, false⟩

/-- `n` consecutive disassociation events. -/
def run_disassociations : Nat → WifiState → WifiState
  | 0, st => st
  | n + 1, st => run_disassociations n (wifi_on_sta_disconnected st).1

/-- Where the association attempt stands after the handler ran:
`wifi_connect` waits on `WIFI_CONNECTED_BIT | WIFI_FAIL_BIT`, and when the
fail bit is set it stops the station and calls `start_provisioning`
(Provisioning); while the handler keeps re-attempting, the machine is still
associating (`CONN_STATE_WIFI_CONNECTING`). -/
def association_phase (st : WifiState) : conn_state_t :=
  if st.wifi_fail_bit then conn_state_t.WIFI_PROVISIONING
  else conn_state_t.WIFI_CONNECTING

/- ===========================================================================
   Theorems
   =========================================================================== -/

theorem dns_set_header_length (rx : List Nat) :
    (dns_set_header rx).length = rx.length := by
  simp [dns_set_header]

theorem dns_set_header_get_ne (rx : List Nat) (k : Nat)
    (h2 : k ≠ 2) (h3 : k ≠ 3) (h6 : k ≠ 6) (h7 : k ≠ 7) :
    (dns_set_header rx)[k]? = rx[k]? := by
  unfold dns_set_header
  rw [List.getElem?_set_ne (by omega), List.getElem?_set_ne (by omega),
    List.getElem?_set_ne (by omega), List.getElem?_set_ne (by omega)]

/-- Claim C7: the DNS responder replies exactly to datagrams holding at least the
12-byte header; the reply is the request verbatim except that the flags field
becomes 0x8400 (bytes 0x84, 0x00 at offsets 2-3) and ANCOUNT becomes 1 (bytes
0x00, 0x01 at offsets 6-7), so the transaction id (offsets 0-1), QDCOUNT
(offsets 4-5) and everything from offset 8 on — in particular the question
section — are the request's, and exactly the 16-byte answer record
(compression pointer 0xC00C, TYPE=A, CLASS=IN, TTL=60, RDLENGTH=4,
RDATA=192.168.4.1) is appended after the request bytes. -/
theorem dns_response_wire_format (rx : List Nat) :
    (dns_server_handle_datagram rx = none ↔ rx.length < 12) ∧
    (∀ r, dns_server_handle_datagram rx = some r →
      r.length = rx.length + 16 ∧
      r[0]? = rx[0]? ∧ r[1]? = rx[1]? ∧
      r[2]? = some 132 ∧ r[3]? = some 0 ∧
      r[4]? = rx[4]? ∧ r[5]? = rx[5]? ∧
      r[6]? = some 0 ∧ r[7]? = some 1 ∧
      (∀ k, 8 ≤ k → k < rx.length → r[k]? = rx[k]?) ∧
      r.drop rx.length = dns_answer_record) := by
  unfold dns_server_handle_datagram dns_header_size
  by_cases h12 : rx.length < 12
  · constructor
    · simp [h12]
    · intro r hr
      simp [h12] at hr
  · constructor
    · simp [h12]
    · intro r hr
      simp only [if_neg h12, Option.some.injEq] at hr
      subst hr
      have hlen : (dns_set_header rx).length = rx.length := dns_set_header_length rx
      have happ : ∀ k, k < rx.length →
          (dns_set_header rx ++ dns_answer_record)[k]? = (dns_set_header rx)[k]? := by
        intro k hk
        rw [List.getElem?_append, if_pos (show k < (dns_set_header rx).length by omega)]
      have hget_ne : ∀ k, k ≠ 2 → k ≠ 3 → k ≠ 6 → k ≠ 7 → k < rx.length →
          (dns_set_header rx ++ dns_answer_record)[k]? = rx[k]? := by
        intro k h2 h3 h6 h7 hk
        rw [happ k hk, dns_set_header_get_ne rx k h2 h3 h6 h7]
      refine ⟨?_, ?_, ?_, ?_, ?_, ?_, ?_, ?_, ?_, ?_, ?_⟩
      · simp [hlen, dns_answer_record, captive_ip]
      · exact hget_ne 0 (by omega) (by omega) (by omega) (by omega) (by omega)
      · exact hget_ne 1 (by omega) (by omega) (by omega) (by omega) (by omega)
      · rw [happ 2 (by omega)]
        unfold dns_set_header
        rw [List.getElem?_set_ne (by omega), List.getElem?_set_ne (by omega),
          List.getElem?_set_ne (by omega)]
        exact List.getElem?_set_eq_of_lt 132 (by omega)
      · rw [happ 3 (by omega)]
        unfold dns_set_header
        rw [List.getElem?_set_ne (by omega), List.getElem?_set_ne (by omega)]
        exact List.getElem?_set_eq_of_lt 0 (by rw [List.length_set]; omega)
      · exact hget_ne 4 (by omega) (by omega) (by omega) (by omega) (by omega)
      · exact hget_ne 5 (by omega) (by omega) (by omega) (by omega) (by omega)
      · rw [happ 6 (by omega)]
        unfold dns_set_header
        rw [List.getElem?_set_ne (by omega)]
        exact List.getElem?_set_eq_of_lt 0 (by rw [List.length_set, List.length_set]; omega)
      · rw [happ 7 (by omega)]
        unfold dns_set_header
        exact List.getElem?_set_eq_of_lt 1
          (by rw [List.length_set, List.length_set, List.length_set]; omega)
      · intro k hk8 hk
        exact hget_ne k (by omega) (by omega) (by omega) (by omega) hk
      · rw [← hlen, List.drop_left]

/-- Witness for C7 at a concrete minimal 12-byte request. -/
theorem dns_response_wire_format_witness :
    (dns_server_handle_datagram [9, 9, 0, 0, 0, 1, 0, 0, 0, 0, 0, 0]).isSome = true ∧
    (dns_set_header [9, 9, 0, 0, 0, 1, 0, 0, 0, 0, 0, 0] ++ dns_answer_record).length = 28 ∧
    (dns_set_header [9, 9, 0, 0, 0, 1, 0, 0, 0, 0, 0, 0] ++ dns_answer_record).drop 12 =
      dns_answer_record := by
  have h := (dns_response_wire_format [9, 9, 0, 0, 0, 1, 0, 0, 0, 0, 0, 0]).2
    (dns_set_header [9, 9, 0, 0, 0, 1, 0, 0, 0, 0, 0, 0] ++ dns_answer_record) rfl
  exact ⟨rfl, h.1, h.2.2.2.2.2.2.2.2.2.2⟩

set_option maxRecDepth 10000 in
/-- Claim C9: building the response for an accepted datagram writes only inside the
512-byte `tx_buffer` — refuted at the failing input: a received datagram of
the full receive-buffer length 512 makes the answer-record writes land at
offsets 512..527, outside the buffer (offset 527 is written, and not all write
offsets are below 512). -/
theorem dns_tx_write_overflow_at_512 :
    (dns_tx_write_offsets 512).all (fun o => decide (o < DNS_TX_BUFFER_SIZE)) = false ∧
    527 ∈ dns_tx_write_offsets 512 ∧
    12 ≤ 512 ∧ 512 ≤ DNS_RX_BUFFER_SIZE := by decide

theorem takeWhile_len_le (p : Nat → Bool) : ∀ l : List Nat, (l.takeWhile p).length ≤ l.length := by
  intro l
  induction l with
  | nil => simp
  | cons a t ih =>
    by_cases h : p a = true <;> simp [List.takeWhile, h] <;> omega

theorem readAt_ne_zero_lt {src : List Nat} {i : Nat} (h : readAt src i ≠ 0) : i < src.length := by
  by_contra hge
  push_neg at hge
  have hnone : src[i]? = none := by
    rw [List.getElem?_eq_none_iff]
    omega
  simp [readAt, hnone] at h

theorem scanEnd_le_length (p : Nat → Bool) (src : List Nat) (j : Nat) (h : j ≤ src.length) :
    scanEnd p src j ≤ src.length := by
  unfold scanEnd
  have h1 := takeWhile_len_le p (src.drop j)
  have h2 : (src.drop j).length = src.length - j := List.length_drop j src
  omega

/-- Pass 1 never reads an input index beyond the terminator position
`src.length` and writes at most `r` bytes (so the null terminator lands within
the destination). -/
theorem url_decode_pass1_go_safe (src : List Nat) :
    ∀ r i, i ≤ src.length →
      (url_decode_pass1_go src i r).1.length ≤ r ∧
      (url_decode_pass1_go src i r).2 ≤ src.length := by
  intro r
  induction r with
  | zero =>
    intro i hi
    unfold url_decode_pass1_go
    by_cases hc : readAt src i = 0 <;> simp [hc, hi]
  | succ r' ih =>
    intro i hi
    by_cases hc : readAt src i = 0
    · unfold url_decode_pass1_go
      simp [hc, hi]
    · have hilt : i < src.length := readAt_ne_zero_lt hc
      unfold url_decode_pass1_go
      simp only [hc, if_false]
      by_cases h43 : readAt src i = 43
      · obtain ⟨l1, l2⟩ := ih (i+1) (by omega)
        simp [h43, l1, l2]
      · by_cases h37 : readAt src i = 37
        · by_cases hc1 : readAt src (i+1) = 0
          · obtain ⟨l1, l2⟩ := ih (i+1) (by omega)
            simp [h43, h37, hc1, l1, l2]
            omega
          · have h1lt : i + 1 < src.length := readAt_ne_zero_lt hc1
            by_cases hc2 : readAt src (i+2) = 0
            · obtain ⟨l1, l2⟩ := ih (i+1) (by omega)
              simp [h43, h37, hc1, hc2, l1, l2]
              omega
            · have h2lt : i + 2 < src.length := readAt_ne_zero_lt hc2
              obtain ⟨l1, l2⟩ := ih (i+3) (by omega)
              simp [h43, h37, hc1, hc2, l1, l2]
        · obtain ⟨l1, l2⟩ := ih (i+1) (by omega)
          simp [h43, h37, l1, l2]

/-- Pass 2 never reads an input index beyond the terminator position
`src.length` and writes at most `r` bytes, whatever the iteration bound. -/
theorem html_entity_decode_go_safe (src : List Nat) :
    ∀ f i r, i ≤ src.length →
      (html_entity_decode_go src f i r).1.length ≤ r ∧
      (html_entity_decode_go src f i r).2 ≤ src.length := by
  intro f
  induction f with
  | zero =>
    intro i r hi
    simp [html_entity_decode_go, hi]
  | succ f ih =>
    intro i r hi
    by_cases hc : readAt src i = 0
    · unfold html_entity_decode_go
      simp [hc, hi]
    · have hilt : i < src.length := readAt_ne_zero_lt hc
      by_cases hr : r = 0
      · unfold html_entity_decode_go
        simp [hc, hr, hi]
      · unfold html_entity_decode_go
        simp only [hc, hr, if_false]
        by_cases h38 : readAt src i = 38
        case neg =>
          obtain ⟨l1, l2⟩ := ih (i+1) (r-1) (by omega)
          simp [h38, l1, l2]
          omega
        case pos =>
          by_cases h35 : readAt src (i+1) = 35
          case neg =>
            obtain ⟨l1, l2⟩ := ih (i+1) (r-1) (by omega)
            simp [h38, h35, l1, l2]
            omega
          case pos =>
            have h1lt : i + 1 < src.length := readAt_ne_zero_lt (by simp [h35])
            by_cases hx : readAt src (i+2) = 120 ∨ readAt src (i+2) = 88
            case pos =>
              have h2lt : i + 2 < src.length := by
                refine readAt_ne_zero_lt ?_
                rcases hx with hx | hx <;> simp [hx]
              have he : scanEnd isHexDigitB src (i+3) ≤ src.length :=
                scanEnd_le_length _ _ _ (by omega)
              simp only [h38, h35, hx, if_true, ite_true]
              by_cases hok : 0 < (if i + 3 < scanEnd isHexDigitB src (i+3) then
                  strtoulSat (hexListVal ((src.drop (i+3)).takeWhile isHexDigitB)) else 0) ∧
                  readAt src (scanEnd isHexDigitB src (i+3)) = 59
              case pos =>
                have helt : scanEnd isHexDigitB src (i+3) < src.length :=
                  readAt_ne_zero_lt (by simp [hok.2])
                by_cases hfit : 0 < (encode_utf8 (if i + 3 < scanEnd isHexDigitB src (i+3) then
                    strtoulSat (hexListVal ((src.drop (i+3)).takeWhile isHexDigitB)) else 0)).length ∧
                    (encode_utf8 (if i + 3 < scanEnd isHexDigitB src (i+3) then
                    strtoulSat (hexListVal ((src.drop (i+3)).takeWhile isHexDigitB)) else 0)).length ≤ r
                case pos =>
                  obtain ⟨l1, l2⟩ := ih (scanEnd isHexDigitB src (i+3) + 1) (r - (encode_utf8 (if i + 3 < scanEnd isHexDigitB src (i+3) then
                    strtoulSat (hexListVal ((src.drop (i+3)).takeWhile isHexDigitB)) else 0)).length) (by omega)
                  simp only [hok, hfit, and_self, if_true, ite_true]
                  constructor
                  · simp only [List.length_append]
                    omega
                  · simp only [max_le_iff]
                    omega
                case neg =>
                  obtain ⟨l1, l2⟩ := ih (i+1) (r-1) (by omega)
                  simp [hok, hfit, l1, l2]
                  omega
              case neg =>
                obtain ⟨l1, l2⟩ := ih (i+1) (r-1) (by omega)
                simp [hok, l1, l2]
                omega
            case neg =>
              have he : scanEnd isDigitB src (i+2) ≤ src.length :=
                scanEnd_le_length _ _ _ (by omega)
              simp only [h38, h35, hx, if_true, ite_false, if_false]
              by_cases hok : 0 < (if i + 2 < scanEnd isDigitB src (i+2) then
                  strtoulSat (decListVal ((src.drop (i+2)).takeWhile isDigitB)) else 0) ∧
                  readAt src (scanEnd isDigitB src (i+2)) = 59
              case pos =>
                have helt : scanEnd isDigitB src (i+2) < src.length :=
                  readAt_ne_zero_lt (by simp [hok.2])
                by_cases hfit : 0 < (encode_utf8 (if i + 2 < scanEnd isDigitB src (i+2) then
                    strtoulSat (decListVal ((src.drop (i+2)).takeWhile isDigitB)) else 0)).length ∧
                    (encode_utf8 (if i + 2 < scanEnd isDigitB src (i+2) then
                    strtoulSat (decListVal ((src.drop (i+2)).takeWhile isDigitB)) else 0)).length ≤ r
                case pos =>
                  obtain ⟨l1, l2⟩ := ih (scanEnd isDigitB src (i+2) + 1) (r - (encode_utf8 (if i + 2 < scanEnd isDigitB src (i+2) then
                    strtoulSat (decListVal ((src.drop (i+2)).takeWhile isDigitB)) else 0)).length) (by omega)
                  simp only [hok, hfit, and_self, if_true, ite_true]
                  constructor
                  · simp only [List.length_append]
                    omega
                  · simp only [max_le_iff]
                    omega
                case neg =>
                  obtain ⟨l1, l2⟩ := ih (i+1) (r-1) (by omega)
                  simp [hok, hfit, l1, l2]
                  omega
              case neg =>
                obtain ⟨l1, l2⟩ := ih (i+1) (r-1) (by omega)
                simp [hok, l1, l2]
                omega

/-- Claim C8: for every input string and destination capacity of at least 1 byte,
each decoding pass reads no input index beyond the terminator (index
`src.length`), and writes at most `capacity - 1` bytes, so the null
terminator it stores lands within the destination; this covers inputs ending
in truncated hex or decimal entities. -/
theorem decoder_bounds_safe (src : List Nat) (cap : Nat) (hcap : 1 ≤ cap) :
    (url_decode_pass1_go src 0 (cap - 1)).2 ≤ src.length ∧
    (url_decode_pass1 src cap).length ≤ cap - 1 ∧
    (html_entity_decode_go src (cap - 1) 0 (cap - 1)).2 ≤ src.length ∧
    (html_entity_decode src cap).length ≤ cap - 1 := by
  obtain ⟨p1, p2⟩ := url_decode_pass1_go_safe src (cap - 1) 0 (Nat.zero_le _)
  obtain ⟨q1, q2⟩ := html_entity_decode_go_safe src (cap - 1) 0 (cap - 1) (Nat.zero_le _)
  exact ⟨p2, p1, q2, q1⟩

/-- Witness for C8 at the truncated hex entity input `"&#x"` and capacity 64. -/
theorem decoder_bounds_safe_witness :
    (url_decode_pass1_go [38, 35, 120] 0 63).2 ≤ 3 ∧
    (url_decode_pass1 [38, 35, 120] 64).length ≤ 63 ∧
    (html_entity_decode_go [38, 35, 120] 63 0 63).2 ≤ 3 ∧
    (html_entity_decode [38, 35, 120] 64).length ≤ 63 :=
  decoder_bounds_safe [38, 35, 120] 64 (by decide)

theorem readAt_append (pre l : List Nat) (k : Nat) :
    readAt (pre ++ l) (pre.length + k) = readAt l k := by
  simp [readAt, List.getElem?_append_right (Nat.le_add_right pre.length k)]

theorem readAt_append_zero (pre : List Nat) (c : Nat) (t : List Nat) :
    readAt (pre ++ c :: t) pre.length = c := by
  have h := readAt_append pre (c :: t) 0
  simpa [readAt] using h

theorem readAt_append_one (pre : List Nat) (c d : Nat) (t : List Nat) :
    readAt (pre ++ c :: d :: t) (pre.length + 1) = d := by
  have h := readAt_append pre (c :: d :: t) 1
  simpa [readAt] using h

theorem readAt_append_two (pre : List Nat) (c d e : Nat) (t : List Nat) :
    readAt (pre ++ c :: d :: e :: t) (pre.length + 2) = e := by
  have h := readAt_append pre (c :: d :: e :: t) 2
  simpa [readAt] using h

theorem readAt_at_length (l : List Nat) : readAt l l.length = 0 := by
  have h : l[l.length]? = none := by
    rw [List.getElem?_eq_none_iff]
  simp [readAt, h]

theorem hexDigitOfNat_pos (n : Nat) : 0 < hexDigitOfNat n := by
  unfold hexDigitOfNat
  split <;> omega

set_option maxRecDepth 40000 in
theorem strtol16Byte_encode : ∀ b : Nat, b < 256 →
    strtol16Byte (hexDigitOfNat (b / 16)) (hexDigitOfNat (b % 16)) = b := by decide

theorem percent_encode_cons (b : Nat) (t : List Nat) :
    percent_encode (b :: t) =
      37 :: hexDigitOfNat (b / 16) :: hexDigitOfNat (b % 16) :: percent_encode t := rfl

/-- Pass 1 inverts the fully-escaped percent encoding: decoding
`pre ++ percent_encode s` from the cursor at the end of `pre` yields exactly
the bytes of `s` (three input characters per byte), given room for them. -/
theorem url_decode_pass1_go_percent_encode :
    ∀ (s : List Nat), (∀ b ∈ s, b < 256) →
    ∀ (pre : List Nat) (r : Nat), s.length ≤ r →
      url_decode_pass1_go (pre ++ percent_encode s) pre.length r =
        (s, pre.length + 3 * s.length) := by
  intro s
  induction s with
  | nil =>
    intro hwf pre r hr
    have hc : readAt (pre ++ percent_encode []) pre.length = 0 := by
      show readAt (pre ++ []) pre.length = 0
      rw [List.append_nil]
      exact readAt_at_length pre
    unfold url_decode_pass1_go
    cases r <;> simp [hc]
  | cons b t ih =>
    intro hwf pre r hr
    have hb : b < 256 := hwf b (by simp)
    have hwt : ∀ x ∈ t, x < 256 := fun x hx => hwf x (by simp [hx])
    cases r with
    | zero => simp at hr
    | succ r1 =>
      rw [percent_encode_cons]
      have hc : readAt (pre ++ 37 :: hexDigitOfNat (b / 16) :: hexDigitOfNat (b % 16) :: percent_encode t) pre.length = 37 :=
        readAt_append_zero pre 37 _
      have hc1 : readAt (pre ++ 37 :: hexDigitOfNat (b / 16) :: hexDigitOfNat (b % 16) :: percent_encode t) (pre.length + 1) = hexDigitOfNat (b / 16) :=
        readAt_append_one pre 37 _ _
      have hc2 : readAt (pre ++ 37 :: hexDigitOfNat (b / 16) :: hexDigitOfNat (b % 16) :: percent_encode t) (pre.length + 2) = hexDigitOfNat (b % 16) :=
        readAt_append_two pre 37 _ _ _
      unfold url_decode_pass1_go
      simp only [hc, hc1, hc2]
      have hp1 : (0 : Nat) < hexDigitOfNat (b / 16) := hexDigitOfNat_pos _
      have hp2 : (0 : Nat) < hexDigitOfNat (b % 16) := hexDigitOfNat_pos _
      have hrec := ih hwt (pre ++ [37, hexDigitOfNat (b / 16), hexDigitOfNat (b % 16)]) r1 (by simpa using hr)
      have hsrc : (pre ++ [37, hexDigitOfNat (b / 16), hexDigitOfNat (b % 16)]) ++ percent_encode t =
          pre ++ 37 :: hexDigitOfNat (b / 16) :: hexDigitOfNat (b % 16) :: percent_encode t := by
        simp
      have hlen3 : (pre ++ [37, hexDigitOfNat (b / 16), hexDigitOfNat (b % 16)]).length = pre.length + 3 := by
        simp
      rw [hsrc, hlen3] at hrec
      have hstep : pre.length + 3 = pre.length + 1 + 1 + 1 := by omega
      rw [← hstep] at hrec
      simp only [show (37 : Nat) ≠ 0 by decide, show (37 : Nat) ≠ 43 by decide,
        if_false, ite_false, ite_true, if_true]
      rw [if_neg (by omega), if_neg (by omega), hrec, strtol16Byte_encode b hb]
      simp [Prod.mk.injEq]
      omega

theorem noEntityStartB_tail {a : Nat} {t : List Nat} (h : noEntityStartB (a :: t) = true) :
    noEntityStartB t = true := by
  cases t with
  | nil => rfl
  | cons b t2 =>
    simp only [noEntityStartB, Bool.and_eq_true] at h
    exact h.2

theorem noEntityStartB_head {d : Nat} {t2 : List Nat}
    (h : noEntityStartB (38 :: d :: t2) = true) : d ≠ 35 := by
  simp only [noEntityStartB, Bool.and_eq_true, Bool.not_eq_true', Bool.and_eq_false_iff] at h
  rcases h.1 with h1 | h1
  · simp at h1
  · intro hd
    rw [hd] at h1
    simp at h1

/-- Pass 2 is the identity on strings with no `&#` pair, given room. -/
theorem html_entity_decode_go_id :
    ∀ (s : List Nat), (∀ b ∈ s, b ≠ 0) → noEntityStartB s = true →
    ∀ (pre : List Nat) (f r : Nat), s.length ≤ r → s.length ≤ f →
      html_entity_decode_go (pre ++ s) f pre.length r = (s, pre.length + s.length) := by
  intro s
  induction s with
  | nil =>
    intro _ _ pre f r _ _
    have hc : readAt pre pre.length = 0 := readAt_at_length pre
    cases f with
    | zero => simp [html_entity_decode_go]
    | succ f1 =>
      unfold html_entity_decode_go
      simp [hc]
  | cons c t ih =>
    intro hwf hne pre f r hr hf
    cases f with
    | zero => simp at hf
    | succ f1 =>
      have hcne : c ≠ 0 := hwf c (by simp)
      have hc : readAt (pre ++ c :: t) pre.length = c := readAt_append_zero pre c t
      have hrne : r ≠ 0 := by
        simp at hr
        omega
      have hwt : ∀ x ∈ t, x ≠ 0 := fun x hx => hwf x (by simp [hx])
      have hnt : noEntityStartB t = true := noEntityStartB_tail hne
      have hrec := ih hwt hnt (pre ++ [c]) f1 (r - 1)
        (by simp at hr ⊢; omega) (by simp at hf ⊢; omega)
      have hsrc : (pre ++ [c]) ++ t = pre ++ c :: t := by simp
      have hlen1 : (pre ++ [c]).length = pre.length + 1 := by simp
      rw [hsrc, hlen1] at hrec
      unfold html_entity_decode_go
      simp only [hc, hcne, hrne, if_false]
      by_cases h38 : c = 38
      · subst h38
        have hc1 : readAt (pre ++ 38 :: t) (pre.length + 1) ≠ 35 := by
          cases t with
          | nil =>
            have h0 : readAt (pre ++ [38]) (pre.length + 1) = 0 := by
              have hh := readAt_append pre [38] 1
              simpa [readAt] using hh
            show readAt (pre ++ [38]) (pre.length + 1) ≠ 35
            rw [h0]
            omega
          | cons d t2 =>
            have hd : readAt (pre ++ 38 :: d :: t2) (pre.length + 1) = d :=
              readAt_append_one pre 38 d t2
            rw [hd]
            exact noEntityStartB_head hne
        rw [if_pos rfl, if_neg hc1, hrec]
        simp only [Prod.mk.injEq, List.length_cons]
        refine ⟨by simp, ?_⟩
        rw [max_eq_left (by omega)]
        omega
      · simp only [h38, if_false, ite_false]
        rw [hrec]
        simp only [Prod.mk.injEq, List.length_cons]
        exact ⟨by simp, by omega⟩

/-- Claim C2 counterexample: the claimed round trip fails as stated. Encoding the
five-byte string `"&#65;"` with percent-encoding and then running the two-pass
decoder does not return the original string: pass 1 correctly restores
`"&#65;"`, but pass 2 then converts it to `"A"`. -/
theorem url_decode_roundtrip_counterexample :
    url_decode (percent_encode [38, 35, 54, 53, 59]) 64 = [65] ∧
    url_decode (percent_encode [38, 35, 54, 53, 59]) 64 ≠ [38, 35, 54, 53, 59] := by
  decide

/-- Claim C2 (amended): the round trip holds for byte strings that contain no `&#`
pair (no position starting a numeric HTML entity) and fit the 256-byte
intermediate buffer of `url_decode` as well as the destination; and the
two-pass decoder maps `"&#65;&#66;"` to `"AB"`. -/
theorem url_decode_roundtrip_amended (s : List Nat)
    (hwf : ∀ b ∈ s, 0 < b ∧ b < 256)
    (hne : noEntityStartB s = true)
    (hlen : s.length ≤ 255)
    (cap : Nat) (hcap : s.length < cap) :
    url_decode (percent_encode s) cap = s ∧
    url_decode entityABBytes 64 = [65, 66] := by
  constructor
  · unfold url_decode url_decode_pass1
    have h1 := url_decode_pass1_go_percent_encode s (fun b hb => (hwf b hb).2) [] 255 hlen
    simp only [List.nil_append, List.length_nil] at h1
    rw [show (256 - 1 : Nat) = 255 from rfl, h1]
    have htw : s.takeWhile (fun b => b != 0) = s := by
      rw [List.takeWhile_eq_self_iff]
      intro a ha
      have := (hwf a ha).1
      simp
      omega
    unfold html_entity_decode
    simp only [htw]
    have h2 := html_entity_decode_go_id s
      (fun b hb => by have := (hwf b hb).1; omega) hne [] (cap - 1) (cap - 1)
      (by omega) (by omega)
    simp only [List.nil_append, List.length_nil] at h2
    rw [h2]
  · decide

/-- Witness for C2 at the concrete string `"Money"` with capacity 64. -/
theorem url_decode_roundtrip_amended_witness :
    url_decode (percent_encode [77, 111, 110, 101, 121]) 64 = [77, 111, 110, 101, 121] ∧
    url_decode entityABBytes 64 = [65, 66] :=
  url_decode_roundtrip_amended [77, 111, 110, 101, 121] (by decide) (by decide) (by decide)
    64 (by decide)

/-- The trigger flag computed by the parse section coincides with
`sale_accept_condition` on every successfully parsed payload. -/
theorem parse_accept_iff (root : JVal) :
    (parse_sale_message (some root)).1 = true ↔ sale_accept_condition root := by
  unfold parse_sale_message sale_accept_condition
  dsimp only
  cases hty : cJSON_GetObjectItem root typeKeyB with
  | none => simp [hty]
  | some v =>
    cases v with
    | jnull => simp [hty]
    | jbool b => simp [hty]
    | jnum n => simp [hty]
    | jarr xs => simp [hty]
    | jobj fs => simp [hty]
    | jstr ts =>
      by_cases hts : ts = saleB
      · subst hts
        simp only [if_true, ite_true, eq_self_iff_true, Option.some.injEq, JVal.jstr.injEq,
          true_and]
        cases hst : cJSON_GetObjectItem root statusKeyB with
        | none => simp
        | some w =>
          cases w with
          | jnull => simp
          | jbool b => simp
          | jnum n => simp
          | jarr xs => simp
          | jobj fs => simp
          | jstr ss =>
            by_cases hss : ss = succeededB <;> simp [hss]
      · simp [hty, hts]

/-- Claim C3: two accepted payloads, the first arriving outside the debounce window.
If the second arrives less than 1000 ms after the first was accepted, exactly
one event is enqueued and the second causes no state change at all; if it
arrives 1000 ms or later (and the queue has room for both), exactly the two
events are enqueued, in arrival order. -/
theorem mqtt_debounce_window (st : PipelineState) (now1 now2 : Int) (p1 p2 : Option JVal)
    (h1 : (parse_sale_message p1).1 = true) (h2 : (parse_sale_message p2).1 = true)
    (hd1 : ANIMATION_DEBOUNCE_MS ≤ now1 - st.last_animation_time)
    (hq : st.queue.length < QUEUE_CAPACITY) :
    (now2 - now1 < ANIMATION_DEBOUNCE_MS →
       handle_mqtt_message now2 p2 (handle_mqtt_message now1 p1 st) =
         handle_mqtt_message now1 p1 st ∧
       (handle_mqtt_message now1 p1 st).queue = st.queue ++ [(parse_sale_message p1).2]) ∧
    (ANIMATION_DEBOUNCE_MS ≤ now2 - now1 → st.queue.length + 1 < QUEUE_CAPACITY →
       (handle_mqtt_message now2 p2 (handle_mqtt_message now1 p1 st)).queue =
         st.queue ++ [(parse_sale_message p1).2, (parse_sale_message p2).2]) := by
  have hst1 : handle_mqtt_message now1 p1 st =
      { last_animation_time := now1,
        queue := st.queue ++ [(parse_sale_message p1).2] } := by
    unfold handle_mqtt_message xQueueSend
    rw [if_neg (by omega), if_pos h1, if_pos hq]
  constructor
  · intro hlt
    refine ⟨?_, by rw [hst1]⟩
    rw [hst1]
    unfold handle_mqtt_message
    rw [if_pos (by simpa using hlt)]
  · intro hge hq2
    rw [hst1]
    unfold handle_mqtt_message xQueueSend
    rw [if_neg (show ¬(now2 - now1 < ANIMATION_DEBOUNCE_MS) from by omega), if_pos h2]
    rw [if_pos (show (st.queue ++ [(parse_sale_message p1).2]).length < QUEUE_CAPACITY from by
      simp only [List.length_append, List.length_cons, List.length_nil]
      omega)]
    simp

/-- Claim C5: a payload whose JSON parse fails entirely, arriving outside the
debounce window (queue not full per the documented drop policy), still
produces exactly one enqueued event, with amount 0 and empty currency and
event id, and updates the debounce timestamp. -/
theorem malformed_payload_triggers (st : PipelineState) (now : Int)
    (hd : ANIMATION_DEBOUNCE_MS ≤ now - st.last_animation_time)
    (hq : st.queue.length < QUEUE_CAPACITY) :
    (handle_mqtt_message now none st).queue = st.queue ++ [zeroEvent] ∧
    (handle_mqtt_message now none st).last_animation_time = now ∧
    zeroEvent.amount = 0 ∧ zeroEvent.currency = [] ∧ zeroEvent.event_id = [] := by
  have h : handle_mqtt_message now none st =
      { last_animation_time := now, queue := st.queue ++ [zeroEvent] } := by
    unfold handle_mqtt_message xQueueSend
    rw [if_neg (by omega), if_pos (by rfl), if_pos hq]
    rfl
  rw [h]
  exact ⟨rfl, rfl, rfl, rfl, rfl⟩

/-- Witness for C5 at the empty initial state and time 2000 ms. -/
theorem malformed_payload_triggers_witness :
    (handle_mqtt_message 2000 none ⟨0, []⟩).queue = [] ++ [zeroEvent] ∧
    (handle_mqtt_message 2000 none ⟨0, []⟩).last_animation_time = 2000 ∧
    zeroEvent.amount = 0 ∧ zeroEvent.currency = [] ∧ zeroEvent.event_id = [] :=
  malformed_payload_triggers ⟨0, []⟩ 2000 (by decide) (by decide)

theorem foldl_xQueueSend_take (evs : List sale_event_t) : ∀ q : List sale_event_t,
    q.length ≤ QUEUE_CAPACITY →
    List.foldl xQueueSend q evs = q ++ evs.take (QUEUE_CAPACITY - q.length) := by
  induction evs with
  | nil => intro q _; simp
  | cons a t ih =>
    intro q hq
    by_cases hfull : q.length < QUEUE_CAPACITY
    · rw [List.foldl_cons,
        show xQueueSend q a = q ++ [a] from by unfold xQueueSend; rw [if_pos hfull],
        ih (q ++ [a]) (by simp only [List.length_append, List.length_cons, List.length_nil]; omega)]
      rw [show QUEUE_CAPACITY - q.length = (QUEUE_CAPACITY - (q ++ [a]).length) + 1 from by
        simp only [List.length_append, List.length_cons, List.length_nil]; omega]
      simp [List.take_succ_cons]
    · have hlen : QUEUE_CAPACITY - q.length = 0 := by omega
      rw [List.foldl_cons,
        show xQueueSend q a = q from by unfold xQueueSend; rw [if_neg hfull],
        ih q hq, hlen]
      simp [hlen]

/-- Claim C6: the animation queue is a bounded FIFO of capacity 5: sending onto a
full queue returns it unchanged (the new event is dropped, the 5 oldest kept
in order), sending onto a non-full queue appends at the tail (insertion order
= arrival order), the length never grows past 5, and draining a burst from
empty keeps exactly the first 5 events in arrival order. -/
theorem queue_bounded_drop_if_full (q : List sale_event_t) (e : sale_event_t)
    (evs : List sale_event_t) :
    (q.length = QUEUE_CAPACITY → xQueueSend q e = q) ∧
    (q.length < QUEUE_CAPACITY → xQueueSend q e = q ++ [e]) ∧
    (xQueueSend q e).length ≤ max q.length QUEUE_CAPACITY ∧
    List.foldl xQueueSend [] evs = evs.take QUEUE_CAPACITY := by
  refine ⟨?_, ?_, ?_, ?_⟩
  · intro hfull
    unfold xQueueSend
    rw [if_neg (by omega)]
  · intro hroom
    unfold xQueueSend
    rw [if_pos hroom]
  · unfold xQueueSend
    split
    · simp only [List.length_append, List.length_cons, List.length_nil]
      omega
    · omega
  · have h := foldl_xQueueSend_take evs [] (by simp [QUEUE_CAPACITY])
    simpa using h

/-- Witness for C6: a full queue of five events drops the sixth, and a burst
of six events from empty keeps the first five. -/
theorem queue_bounded_drop_if_full_witness :
    xQueueSend (List.replicate 5 zeroEvent) zeroEvent = List.replicate 5 zeroEvent ∧
    List.foldl xQueueSend [] (List.replicate 6 zeroEvent) =
      (List.replicate 6 zeroEvent).take QUEUE_CAPACITY :=
  ⟨(queue_bounded_drop_if_full (List.replicate 5 zeroEvent) zeroEvent []).1 (by decide),
   (queue_bounded_drop_if_full [] zeroEvent (List.replicate 6 zeroEvent)).2.2.2⟩

/-- Witness for C3 with malformed-payload triggers at times 2000/2900 ms
(debounced) and 2000/4000 ms (both enqueued). -/
theorem mqtt_debounce_window_witness :
    (handle_mqtt_message 4000 none (handle_mqtt_message 2000 none ⟨0, []⟩)).queue =
      [] ++ [(parse_sale_message none).2, (parse_sale_message none).2] ∧
    handle_mqtt_message 2900 none (handle_mqtt_message 2000 none ⟨0, []⟩) =
      handle_mqtt_message 2000 none ⟨0, []⟩ :=
  ⟨(mqtt_debounce_window ⟨0, []⟩ 2000 4000 none none rfl rfl (by decide) (by decide)).2
      (by decide) (by decide),
   ((mqtt_debounce_window ⟨0, []⟩ 2000 2900 none none rfl rfl (by decide) (by decide)).1
      (by decide)).1⟩

/-- Claim C4 counterexample: the claimed acceptance condition is not an `iff` on the
code. The payload `{"type":"sale","status":1}` parses as an object whose
`status` is present and does not equal `"succeeded"` (it is not even a
string), yet arriving outside the debounce window it is accepted and enqueues
an event. -/
theorem sale_status_counterexample :
    (handle_mqtt_message 2000 (some statusBadRoot) ⟨0, []⟩).queue.length = 1 ∧
    cJSON_GetObjectItem statusBadRoot statusKeyB = some (JVal.jnum 1) ∧
    JVal.jnum 1 ≠ JVal.jstr succeededB ∧
    ANIMATION_DEBOUNCE_MS ≤ (2000 : Int) - 0 := by
  refine ⟨by decide, by rfl, by simp, by decide⟩

/-- Claim C4 (amended): outside the debounce window, with room in the queue, a
parsed payload is accepted as a trigger (enqueueing exactly one event) iff
`type` is the string `"sale"` and `status` is absent, present but not a
string, or equal to `"succeeded"`; on acceptance the enqueued event carries
the copied `amount`/`currency`/`eventId` fields with zero/empty defaults, so
`{"type":"sale","amount":500,"currency":"USD","eventId":"e1"}` enqueues
exactly `DomainEvent{500,"USD","e1"}` and `{"type":"sale","status":"failed"}`
changes nothing. -/
theorem sale_trigger_amended (j : JVal) (st : PipelineState) (now : Int)
    (hd : ANIMATION_DEBOUNCE_MS ≤ now - st.last_animation_time)
    (hq : st.queue.length < QUEUE_CAPACITY) :
    ((handle_mqtt_message now (some j) st).queue.length = st.queue.length + 1 ↔
       sale_accept_condition j) ∧
    (sale_accept_condition j →
       (handle_mqtt_message now (some j) st).queue =
         st.queue ++ [(parse_sale_message (some j)).2]) ∧
    (handle_mqtt_message now (some sampleSale500) st).queue =
      st.queue ++ [{ amount := 500, currency := usdB, event_id := e1B }] ∧
    handle_mqtt_message now (some sampleSaleFailed) st = st := by
  have hkey : ∀ p : Option JVal, (parse_sale_message p).1 = true →
      handle_mqtt_message now p st =
        { last_animation_time := now, queue := st.queue ++ [(parse_sale_message p).2] } := by
    intro p hp
    unfold handle_mqtt_message xQueueSend
    rw [if_neg (by omega), if_pos hp, if_pos hq]
  have hkeyn : ∀ p : Option JVal, (parse_sale_message p).1 = false →
      handle_mqtt_message now p st = st := by
    intro p hp
    unfold handle_mqtt_message
    rw [if_neg (by omega), if_neg (by simp [hp])]
  refine ⟨?_, ?_, ?_, ?_⟩
  · by_cases hacc : (parse_sale_message (some j)).1 = true
    · rw [hkey _ hacc]
      refine iff_of_true ?_ ((parse_accept_iff j).mp hacc)
      simp
    · have hf : (parse_sale_message (some j)).1 = false := by
        cases hb : (parse_sale_message (some j)).1
        · rfl
        · exact absurd hb hacc
      rw [hkeyn _ hf]
      refine iff_of_false (by omega) ?_
      exact fun hc => hacc ((parse_accept_iff j).mpr hc)
  · intro hacc
    rw [hkey _ ((parse_accept_iff j).mpr hacc)]
  · rw [hkey _ (by decide)]
    rw [show (parse_sale_message (some sampleSale500)).2 =
      { amount := 500, currency := usdB, event_id := e1B } from by decide]
  · exact hkeyn _ (by decide)

/-- Witness for C4 at the sample payloads, the empty state and time 2000 ms. -/
theorem sale_trigger_amended_witness :
    (handle_mqtt_message 2000 (some sampleSale500) ⟨0, []⟩).queue =
      [] ++ [{ amount := 500, currency := usdB, event_id := e1B }] ∧
    handle_mqtt_message 2000 (some sampleSaleFailed) ⟨0, []⟩ = ⟨0, []⟩ :=
  ⟨(sale_trigger_amended sampleSale500 ⟨0, []⟩ 2000 (by decide) (by decide)).2.2.1,
   (sale_trigger_amended sampleSale500 ⟨0, []⟩ 2000 (by decide) (by decide)).2.2.2⟩

/-- Every event the parse section builds has its currency within 7 bytes and
its event id within 63 bytes (the `strncpy` bounds; the zero-initialised
arrays then keep the strings null-terminated inside `char[8]` / `char[64]`). -/
theorem parse_sale_message_wf (p : Option JVal) :
    (parse_sale_message p).2.currency.length ≤ 7 ∧
    (parse_sale_message p).2.event_id.length ≤ 63 := by
  cases p with
  | none => exact ⟨by simp [parse_sale_message, zeroEvent], by simp [parse_sale_message, zeroEvent]⟩
  | some root =>
    unfold parse_sale_message
    dsimp only
    cases hty : cJSON_GetObjectItem root typeKeyB with
    | none => simp [zeroEvent]
    | some v =>
      cases v with
      | jnull => simp [zeroEvent]
      | jbool b => simp [zeroEvent]
      | jnum n => simp [zeroEvent]
      | jarr xs => simp [zeroEvent]
      | jobj fs => simp [zeroEvent]
      | jstr ts =>
        by_cases hts : ts = saleB
        · subst hts
          simp only [ite_true, if_true, eq_self_iff_true]
          split
          · constructor
            · dsimp only
              split <;> simp [List.length_take]
            · dsimp only
              split <;> simp [List.length_take]
          · simp [zeroEvent]
        · simp [hts, zeroEvent]

/-- Claim C10: every event placed on the queue by `handle_mqtt_message` is
well-formed — currency at most 7 bytes, event id at most 63 bytes (so both
strings stay null-terminated inside their fixed arrays) — whatever the
payload; longer inbound values are truncated by `strncpy` to exactly the
first 7 / 63 bytes rather than rejected. -/
theorem queued_event_wellformed (st : PipelineState) (now : Int) (p : Option JVal)
    (root : JVal) (cur sid : List Nat)
    (hinv : ∀ ev ∈ st.queue, ev.currency.length ≤ 7 ∧ ev.event_id.length ≤ 63) :
    (∀ ev ∈ (handle_mqtt_message now p st).queue,
       ev.currency.length ≤ 7 ∧ ev.event_id.length ≤ 63) ∧
    ((parse_sale_message p).2.currency.length ≤ 7 ∧
     (parse_sale_message p).2.event_id.length ≤ 63) ∧
    (cJSON_GetObjectItem root currencyKeyB = some (JVal.jstr cur) →
       (parse_sale_message (some root)).1 = true →
       (parse_sale_message (some root)).2.currency = cur.take 7) ∧
    (cJSON_GetObjectItem root eventIdKeyB = some (JVal.jstr sid) →
       (parse_sale_message (some root)).1 = true →
       (parse_sale_message (some root)).2.event_id = sid.take 63) := by
  have hok_of : ∀ r2 : JVal, (parse_sale_message (some r2)).1 = true →
      cJSON_GetObjectItem r2 typeKeyB = some (JVal.jstr saleB) ∧
      (match cJSON_GetObjectItem r2 statusKeyB with
       | none => true
       | some (JVal.jstr ss) => ss == succeededB
       | some _ => true) = true := by
    intro r2 hacc
    obtain ⟨hty, hstm⟩ := (parse_accept_iff r2).mp hacc
    refine ⟨hty, ?_⟩
    cases hst : cJSON_GetObjectItem r2 statusKeyB with
    | none => rfl
    | some w =>
      cases w with
      | jnull => rfl
      | jbool b => rfl
      | jnum n => rfl
      | jarr xs => rfl
      | jobj fs => rfl
      | jstr ss =>
        rw [hst] at hstm
        simp only [] at hstm
        simp [hstm]
  have hfield : ∀ r2 : JVal, (parse_sale_message (some r2)).1 = true →
      parse_sale_message (some r2) =
        (true,
         { amount := match cJSON_GetObjectItem r2 amountKeyB with
             | some (JVal.jnum v) => toInt32 v
             | _ => 0
           currency := match cJSON_GetObjectItem r2 currencyKeyB with
             | some (JVal.jstr s) => s.take 7
             | _ => []
           event_id := match cJSON_GetObjectItem r2 eventIdKeyB with
             | some (JVal.jstr s) => s.take 63
             | _ => [] }) := by
    intro r2 hacc
    obtain ⟨hty, hok⟩ := hok_of r2 hacc
    unfold parse_sale_message
    dsimp only
    rw [hty]
    simp only [ite_true, if_true, eq_self_iff_true, hok]
  refine ⟨?_, parse_sale_message_wf p, ?_, ?_⟩
  · intro ev hev
    unfold handle_mqtt_message at hev
    split at hev
    · exact hinv ev hev
    · split at hev
      · simp only [] at hev
        unfold xQueueSend at hev
        split at hev
        · rcases List.mem_append.mp hev with h | h
          · exact hinv ev h
          · rw [List.mem_singleton.mp h]
            exact parse_sale_message_wf p
        · exact hinv ev hev
      · exact hinv ev hev
  · intro hcur hacc
    rw [hfield root hacc]
    dsimp only
    rw [hcur]
  · intro hsid hacc
    rw [hfield root hacc]
    dsimp only
    rw [hsid]

/-- Witness for C10: a 10-byte currency and a 70-byte event id are truncated
to 7 and 63 bytes on a concrete accepted payload, starting from the empty
queue. -/
theorem queued_event_wellformed_witness :
    (parse_sale_message (some (JVal.jobj [(typeKeyB, JVal.jstr saleB),
        (currencyKeyB, JVal.jstr (List.replicate 10 65)),
        (eventIdKeyB, JVal.jstr (List.replicate 70 66))]))).2.currency =
      (List.replicate 10 65).take 7 ∧
    (parse_sale_message (some (JVal.jobj [(typeKeyB, JVal.jstr saleB),
        (currencyKeyB, JVal.jstr (List.replicate 10 65)),
        (eventIdKeyB, JVal.jstr (List.replicate 70 66))]))).2.event_id =
      (List.replicate 70 66).take 63 := by
  have h := queued_event_wellformed ⟨0, []⟩ 2000 none
    (JVal.jobj [(typeKeyB, JVal.jstr saleB),
        (currencyKeyB, JVal.jstr (List.replicate 10 65)),
        (eventIdKeyB, JVal.jstr (List.replicate 70 66))])
    (List.replicate 10 65) (List.replicate 70 66) (by simp)
  exact ⟨h.2.2.1 (by rfl) (by rfl), h.2.2.2 (by rfl) (by rfl)⟩

/-- Claim C1 counterexample: starting with stored credentials, after the second
consecutive disassociation the machine is already in the provisioning
fallback, and that second disassociation — with the retry counter at 1,
below the maximum of 2 — does not re-attempt association, contradicting both
parts of the claim (three disassociations needed; counter below 2 always
re-attempts). -/
theorem wifi_retry_counterexample :
    association_phase (run_disassociations 2 wifi_initial) =
      conn_state_t.WIFI_PROVISIONING ∧
    (run_disassociations 1 wifi_initial).wifi_retry_count = 1 ∧
    (run_disassociations 1 wifi_initial).wifi_retry_count < WIFI_RETRY_MAX ∧
    (wifi_on_sta_disconnected (run_disassociations 1 wifi_initial)).2 = false ∧
    association_phase (run_disassociations 1 wifi_initial) =
      conn_state_t.WIFI_CONNECTING := by
  decide

/-- Claim C1 (amended): outside provisioning mode, a disassociation re-attempts
association iff the incremented retry counter is still below
`WIFI_RETRY_MAX = 2` — so only the first disassociation re-attempts — and the
failure signal (which sends `wifi_connect` into the provisioning fallback)
becomes set iff it was already set or the incremented counter reached the
maximum; concretely, from the credentials start the first disassociation
re-attempts (Associating → Associating) and the second lands in Provisioning. -/
theorem wifi_retry_amended (st : WifiState) (hprov : st.provisioning_mode = false) :
    ((wifi_on_sta_disconnected st).2 = true ↔
       st.wifi_retry_count + 1 < WIFI_RETRY_MAX) ∧
    ((wifi_on_sta_disconnected st).1.wifi_fail_bit = true ↔
       (st.wifi_fail_bit = true ∨ WIFI_RETRY_MAX ≤ st.wifi_retry_count + 1)) ∧
    (wifi_on_sta_disconnected st).1.wifi_retry_count = st.wifi_retry_count + 1 ∧
    (wifi_on_sta_disconnected st).1.wifi_connected_bit = false ∧
    (wifi_on_sta_disconnected wifi_initial).2 = true ∧
    association_phase (run_disassociations 1 wifi_initial) =
      conn_state_t.WIFI_CONNECTING ∧
    association_phase (run_disassociations 2 wifi_initial) =
      conn_state_t.WIFI_PROVISIONING := by
  refine ⟨?_, ?_, ?_, ?_, by decide, by decide, by decide⟩
  · unfold wifi_on_sta_disconnected
    simp only [hprov, Bool.false_eq_true, if_false, ite_false]
    by_cases h : st.wifi_retry_count + 1 < WIFI_RETRY_MAX <;> simp [h]
  · unfold wifi_on_sta_disconnected
    simp only [hprov, Bool.false_eq_true, if_false, ite_false]
    by_cases h : st.wifi_retry_count + 1 < WIFI_RETRY_MAX
    · simp only [h, if_true, ite_true]
      constructor
      · exact fun hf => Or.inl hf
      · rintro (hf | hf)
        · exact hf
        · omega
    · simp only [h, if_false, ite_false]
      exact iff_of_true trivial (Or.inr (by omega))
  · unfold wifi_on_sta_disconnected
    simp only [hprov, Bool.false_eq_true, if_false, ite_false]
    by_cases h : st.wifi_retry_count + 1 < WIFI_RETRY_MAX <;> simp [h]
  · unfold wifi_on_sta_disconnected
    simp only [hprov, Bool.false_eq_true, if_false, ite_false]
    by_cases h : st.wifi_retry_count + 1 < WIFI_RETRY_MAX <;> simp [h]

/-- Witness for C1 at the credentials start state. -/
theorem wifi_retry_amended_witness :
    (wifi_on_sta_disconnected wifi_initial).2 = true ∧
    association_phase (run_disassociations 2 wifi_initial) =
      conn_state_t.WIFI_PROVISIONING :=
  ⟨(wifi_retry_amended wifi_initial rfl).2.2.2.2.1,
   (wifi_retry_amended wifi_initial rfl).2.2.2.2.2.2⟩
